import Mathlib

/-!
# Verification of the udc2mongo pipeline

A shallow embedding of the udc2mongo repository (Go): the UCD flattening,
validation, normalization pipeline (`model/parser.go`) and the MongoDB
persistence layer (`database/mongo.go`), together with proofs of the
specification's claims about them.

Conventions of the embedding:
* Go strings are Lean `String`s; MongoDB ObjectIDs and `time.Time`
  timestamps are represented as `Nat` (only freshness/erasure matters).
* Go's `UCDBool` (decoded from "Y"/"N") is a Lean `Bool`.
* Stateful MongoDB operations become pure state-passing functions over a
  list-of-documents collection state; driver-level failures are injected
  through explicit oracle parameters (`deleteOk`, `insertOk`, ...), since
  the Go code only branches on whether each driver call returned an error.
-/

namespace Udc2Mongo

/-- Whitespace predicate of Go's `unicode.IsSpace`, used by
`strings.TrimSpace`: the Latin-1 space characters plus the Unicode
`White_Space` code points. -/
def isGoSpace (c : Char) : Bool :=
  let n := c.toNat
  (0x9 ≤ n && n ≤ 0xD) || n = 0x20 || n = 0x85 || n = 0xA0 ||
  n = 0x1680 || (0x2000 ≤ n && n ≤ 0x200A) ||
  n = 0x2028 || n = 0x2029 || n = 0x202F || n = 0x205F || n = 0x3000

/-- Go's `strings.TrimSpace`: remove leading and trailing whitespace. -/
def trimSpace (s : String) : String :=
  ⟨((s.data.dropWhile isGoSpace).reverse.dropWhile isGoSpace).reverse⟩

/-- Go struct `model.CodePoint` (`model/repertoire.go`): one character or one
inclusive contiguous range of characters. The embedding keeps every field
that any function of the repository reads or writes (identity fields,
the four trimmed fields, the ten "#"-normalized mapping fields, the two
category-marker flags set by flattening, the indexed fields, ObjectID and
timestamps); the remaining ~100 optional descriptive attributes are never
read or written by any transform and are carried as the opaque
pass-through component `otherProps`. -/
@[ext]
structure CodePoint where
  id : Nat := 0
  cp : String := ""
  firstCP : String := ""
  lastCP : String := ""
  age : String := ""
  name : String := ""
  name1 : String := ""
  block : String := ""
  generalCategory : String := ""
  bidiMirroringGlyph : String := ""
  decompositionMapping : String := ""
  simpleUppercase : String := ""
  simpleLowercase : String := ""
  simpleTitlecase : String := ""
  uppercaseMapping : String := ""
  lowercaseMapping : String := ""
  titlecaseMapping : String := ""
  simpleCaseFolding : String := ""
  caseFolding : String := ""
  script : String := ""
  deprecated : Bool := false
  noncharacter : Bool := false
  otherProps : List (String × String) := []
  createdAt : Nat := 0
  updatedAt : Nat := 0
  deriving Repr, DecidableEq

/-- Go struct `model.Repertoire` (`model/repertoire.go`): the four category
subsequences of the source document. -/
structure Repertoire where
  reserved : List CodePoint := []
  noncharacter : List CodePoint := []
  surrogate : List CodePoint := []
  codePoints : List CodePoint := []
  deriving Repr, DecidableEq

/-- Go struct `model.Block` (`model/models.go`): a named contiguous range. -/
@[ext]
structure Block where
  id : Nat := 0
  firstCP : String := ""
  lastCP : String := ""
  name : String := ""
  createdAt : Nat := 0
  updatedAt : Nat := 0
  deriving Repr, DecidableEq

/-- Go struct `model.Blocks` (`model/models.go`). -/
structure Blocks where
  blocks : List Block := []
  deriving Repr, DecidableEq

/-- Go struct `model.UCD` (`model/models.go`): the decoded root document. Go's nil
pointers `*Repertoire` / `*Blocks` become `Option`. -/
structure UCD where
  id : Nat := 0
  xmlns : String := ""
  description : String := ""
  repertoire : Option Repertoire := none
  blocks : Option Blocks := none
  createdAt : Nat := 0
  updatedAt : Nat := 0
  version : String := ""
  deriving Repr, DecidableEq

/-- Embeds `getCodePointsFromRepertoire` (`model/parser.go`): flatten the four
subsequences into one list, in the order normal (`char`), reserved,
noncharacter, surrogate; each reserved record gets `Deprecated = true`
and each noncharacter record gets `Noncharacter = true` before being
appended, mirroring the Go loops. -/
def getCodePointsFromRepertoire : Option Repertoire → List CodePoint
  | none => []
  | some repertoire =>
    let all := ([] : List CodePoint) ++ repertoire.codePoints
    let all := repertoire.reserved.foldl
      (fun acc cp => acc ++ [{ cp with deprecated := true }]) all
    let all := repertoire.noncharacter.foldl
      (fun acc cp => acc ++ [{ cp with noncharacter := true }]) all
    all ++ repertoire.surrogate

/-- Embeds `ExtractAllCodePoints` (`model/parser.go`). -/
def ExtractAllCodePoints (ucd : UCD) : List CodePoint :=
  match ucd.repertoire with
  | none => []
  | some repertoire => ([] : List CodePoint) ++ getCodePointsFromRepertoire (some repertoire)

/-- Embeds `ExtractBlocks` (`model/parser.go`). -/
def ExtractBlocks (ucd : UCD) : List Block :=
  match ucd.blocks with
  | none => []
  | some bs => bs.blocks

/-- The two rejection reasons of `ValidateCodePoint` (`model/parser.go`),
in the order the Go code checks them. -/
inductive ValidationErr where
  /-- "code point must have either cp or first-cp" -/
  | missingIdentity
  /-- "code point with first-cp must also have last-cp" -/
  | incompleteRange
  deriving Repr, DecidableEq

/-- Embeds `ValidateCodePoint` (`model/parser.go`): `none` means the record is
accepted, `some e` that it is rejected with error `e`. -/
def ValidateCodePoint (cp : CodePoint) : Option ValidationErr :=
  if cp.cp = "" && cp.firstCP = "" then
    some .missingIdentity
  else if cp.firstCP ≠ "" && cp.lastCP = "" then
    some .incompleteRange
  else
    none

/-- Embeds `NormalizeCodePoint` (`model/parser.go`): trim whitespace from
`Name`, `Name1`, `Block`, `Script`; replace a literal "#" with the empty
string in each of the ten mapping-type fields, one `if` per field
exactly as in the Go code. -/
def NormalizeCodePoint (cp : CodePoint) : CodePoint :=
  let cp := { cp with
    name := trimSpace cp.name
    name1 := trimSpace cp.name1
    block := trimSpace cp.block
    script := trimSpace cp.script }
  let cp := if cp.bidiMirroringGlyph = "#" then { cp with bidiMirroringGlyph := "" } else cp
  let cp := if cp.decompositionMapping = "#" then { cp with decompositionMapping := "" } else cp
  let cp := if cp.simpleUppercase = "#" then { cp with simpleUppercase := "" } else cp
  let cp := if cp.simpleLowercase = "#" then { cp with simpleLowercase := "" } else cp
  let cp := if cp.simpleTitlecase = "#" then { cp with simpleTitlecase := "" } else cp
  let cp := if cp.uppercaseMapping = "#" then { cp with uppercaseMapping := "" } else cp
  let cp := if cp.lowercaseMapping = "#" then { cp with lowercaseMapping := "" } else cp
  let cp := if cp.titlecaseMapping = "#" then { cp with titlecaseMapping := "" } else cp
  let cp := if cp.simpleCaseFolding = "#" then { cp with simpleCaseFolding := "" } else cp
  let cp := if cp.caseFolding = "#" then { cp with caseFolding := "" } else cp
  cp

/-- Embeds `ProcessUCDForMongoDB` (`model/parser.go`): flatten, then for each
record validate (skip on rejection) and normalize; extract the blocks;
the Go function always returns a `nil` error, modelled as the
`Option String` component being `none`. -/
def ProcessUCDForMongoDB (ucd : UCD) : List CodePoint × List Block × Option String :=
  let codePoints := ExtractAllCodePoints ucd
  let validCodePoints := codePoints.foldl
    (fun acc cp =>
      match ValidateCodePoint cp with
      | some _ => acc
      | none => acc ++ [NormalizeCodePoint cp])
    []
  let blocks := ExtractBlocks ucd
  (validCodePoints, blocks, none)

/-! ## Persistence layer (`database/mongo.go`)

A MongoDB collection is modelled as a list of documents. The driver's
fallible calls (`DeleteMany`, `InsertMany`) are modelled through explicit
success oracles, since the Go code only branches on whether each call
returned an error: `deleteOk` says whether the initial `DeleteMany`
succeeds, and `insertOk i` whether the `InsertMany` of the batch starting
at offset `i` succeeds. Fresh `primitive.NewObjectID()` values are drawn
from a supplied injection-point `ids : Nat → Nat` (the `i`-th stamped
record gets `ids i`), and `time.Now()` is the supplied `now`. -/

/-- The errors `SaveCodePoints` can return: the wrapped `DeleteMany`
failure, or "failed to insert code points batch %d-%d" carrying the
positional range `[first, last)` of the failing batch. -/
inductive SaveErr where
  | deleteFailed
  | insertFailed (first last : Nat)
  deriving Repr, DecidableEq

/-- The stamping loop of `SaveCodePoints` (`database/mongo.go`):
`codePoints[i].ID = primitive.NewObjectID(); CreatedAt = now;
UpdatedAt = now` for each index `i` in order. -/
def stampDocs (ids : Nat → Nat) (now : Nat) : Nat → List CodePoint → List CodePoint
  | _, [] => []
  | i, cp :: rest =>
    { cp with id := ids i, createdAt := now, updatedAt := now } :: stampDocs ids now (i + 1) rest

/-- The batched-insert loop of `SaveCodePoints` (`database/mongo.go`):
`for i := 0; i < len(documents); i += batchSize` with `batchSize = 1000`,
`end = min(i+batchSize, len)`; a failing `InsertMany` aborts with the
batch's positional range, batches already inserted stay in `db`. -/
def insertLoop (insertOk : Nat → Bool) (db : List CodePoint) :
    List CodePoint → Nat → List CodePoint × Option SaveErr
  | [], _ => (db, none)
  | d :: rest, i =>
    let batch := (d :: rest).take 1000
    if insertOk i then
      insertLoop insertOk (db ++ batch) (rest.drop 999) (i + 1000)
    else
      (db, some (.insertFailed i (i + min 1000 (d :: rest).length)))
  termination_by docs _ => docs.length
  decreasing_by simp only [List.length_drop, List.length_cons]; omega

/-- Embeds `SaveCodePoints` (`database/mongo.go`): early return on empty input;
otherwise `DeleteMany` the whole collection, stamp every record with a
fresh ObjectID and the current time, and insert in batches of 1000.
Returns the resulting collection state and the error, if any. -/
def SaveCodePoints (deleteOk : Bool) (insertOk : Nat → Bool) (ids : Nat → Nat) (now : Nat)
    (db : List CodePoint) (codePoints : List CodePoint) : List CodePoint × Option SaveErr :=
  if codePoints.length = 0 then
    (db, none)
  else if !deleteOk then
    (db, some .deleteFailed)
  else
    let documents := stampDocs ids now 0 codePoints
    insertLoop insertOk [] documents 0

/-- The stamping loop of `SaveBlocks` (`database/mongo.go`). -/
def stampBlocks (ids : Nat → Nat) (now : Nat) : Nat → List Block → List Block
  | _, [] => []
  | i, b :: rest =>
    { b with id := ids i, createdAt := now, updatedAt := now } :: stampBlocks ids now (i + 1) rest

/-- Embeds `SaveBlocks` (`database/mongo.go`): early return on empty input;
otherwise `DeleteMany` then one unbatched `InsertMany`. Only the success
path is needed by the claims about it, so the oracles are the two
booleans. -/
def SaveBlocks (deleteOk insertOk : Bool) (ids : Nat → Nat) (now : Nat)
    (db : List Block) (blocks : List Block) : List Block × Option SaveErr :=
  if blocks.length = 0 then
    (db, none)
  else if !deleteOk then
    (db, some .deleteFailed)
  else if !insertOk then
    ([], some (.insertFailed 0 blocks.length))
  else
    (stampBlocks ids now 0 blocks, none)

/-- The metadata document built by `SaveUCD` (`database/mongo.go`):
only `Xmlns`, `Description`, `Version` are copied from the parsed root,
and both timestamps are `time.Now()`. -/
def mkUCDMetadata (ucd : UCD) (now : Nat) : UCD :=
  { xmlns := ucd.xmlns, description := ucd.description, version := ucd.version,
    createdAt := now, updatedAt := now }

/-- Embeds `SaveUCD` (`database/mongo.go`): `Drop` the `ucd` collection, then
`InsertOne` the fresh metadata document (success path). -/
def SaveUCD (now : Nat) (ucd : UCD) : List UCD :=
  [mkUCDMetadata ucd now]

/-- The view `GetCodePointByCP` has of the driver (`database/mongo.go`):
`FindOne(ctx, bson.M{"cp": cp})` either fails at the store level
(oracle `storeFail`), or returns the first matching document, or
reports `mongo.ErrNoDocuments`. -/
inductive FindOneResult where
  | found (cp : CodePoint)
  | noDocuments
  | storeFailure (msg : String)
  deriving Repr, DecidableEq

/-- The `FindOne` call of `GetCodePointByCP`, over the collection state
`db`, with an injected store-level failure `storeFail`. -/
def findOneByCP (storeFail : Option String) (db : List CodePoint) (cp : String) :
    FindOneResult :=
  match storeFail with
  | some msg => .storeFailure msg
  | none =>
    match db.find? (fun d => d.cp = cp) with
    | some d => .found d
    | none => .noDocuments

/-- Embeds `GetCodePointByCP` (`database/mongo.go`): `mongo.ErrNoDocuments` is
translated to `(nil, nil)`; any other failure is wrapped into a non-nil
error; a hit returns the document. The Go pair `(*model.CodePoint, error)`
becomes `Except String (Option CodePoint)`. -/
def GetCodePointByCP (storeFail : Option String) (db : List CodePoint) (cp : String) :
    Except String (Option CodePoint) :=
  match findOneByCP storeFail db cp with
  | .found d => .ok (some d)
  | .noDocuments => .ok none
  | .storeFailure msg => .error ("failed to find code point " ++ cp ++ ": " ++ msg)

/-! ## The whole run (`main.go`), success path

`main` fetches and decodes the source, runs `ProcessUCDForMongoDB`, then
(indexes aside, which touch no documents) `SaveUCD`, `SaveCodePoints`,
`SaveBlocks` in order, after setting `ucd.Version = "16.0.0"`. The
destination state is the document contents of the three collections. -/

/-- The three destination collections. -/
structure DBState where
  ucd : List UCD
  codePoints : List CodePoint
  blocks : List Block
  deriving Repr, DecidableEq

/-- One successful run of the pipeline's persistence phase (`main.go`):
process the decoded source, then `SaveUCD`, `SaveCodePoints`,
`SaveBlocks` with every store operation succeeding; `idsCP`/`idsB` inject
the ObjectIDs freshly generated during the run and `now` its clock. -/
def runPipeline (src : UCD) (idsCP idsB : Nat → Nat) (now : Nat) (s : DBState) : DBState :=
  let processed := ProcessUCDForMongoDB src
  let ucdColl := SaveUCD now { src with version := "16.0.0" }
  let cpColl := (SaveCodePoints true (fun _ => true) idsCP now s.codePoints processed.1).1
  let blockColl := (SaveBlocks true true idsB now s.blocks processed.2.1).1
  ⟨ucdColl, cpColl, blockColl⟩

/-- Erase the run-specific data of a persisted code point: the freshly
assigned ObjectID and the two timestamps. -/
def eraseCP (cp : CodePoint) : CodePoint :=
  { cp with id := 0, createdAt := 0, updatedAt := 0 }

/-- Erase the run-specific data of a persisted block. -/
def eraseBlock (b : Block) : Block :=
  { b with id := 0, createdAt := 0, updatedAt := 0 }

/-- Erase the run-specific data of the metadata document. -/
def eraseMeta (m : UCD) : UCD :=
  { m with id := 0, createdAt := 0, updatedAt := 0 }

/-- A destination state up to freshly assigned identities and
timestamps. -/
def eraseState (s : DBState) : DBState :=
  ⟨s.ucd.map eraseMeta, s.codePoints.map eraseCP, s.blocks.map eraseBlock⟩

/-! ## Helper lemmas -/

/-- The Go `for ... append(acc, f(x))` loops are `foldl`s; they build
`init ++ l.map f`. -/
theorem foldl_append_singleton {α β : Type} (f : α → β) (l : List α) (init : List β) :
    l.foldl (fun acc x => acc ++ [f x]) init = init ++ l.map f := by
  induction l generalizing init with
  | nil => simp
  | cons a t ih => simp [List.foldl_cons, ih, List.append_assoc]

/-- Normal form of the flattening: the four subsequences concatenated in
the fixed order normal, reserved, noncharacter, surrogate, the reserved
and noncharacter ones with their category marker overwritten. -/
theorem getCodePointsFromRepertoire_eq (repertoire : Repertoire) :
    getCodePointsFromRepertoire (some repertoire) =
      repertoire.codePoints ++
      repertoire.reserved.map (fun cp => { cp with deprecated := true }) ++
      repertoire.noncharacter.map (fun cp => { cp with noncharacter := true }) ++
      repertoire.surrogate := by
  simp [getCodePointsFromRepertoire, foldl_append_singleton, List.append_assoc]

/-- The accepted records, in the validation's own terms. -/
def accepted (cp : CodePoint) : Bool :=
  (ValidateCodePoint cp).isNone

/-- The validate-normalize loop of `ProcessUCDForMongoDB` builds the
filter-then-map of its input. -/
theorem processLoop_eq (l : List CodePoint) (init : List CodePoint) :
    l.foldl
      (fun acc cp =>
        match ValidateCodePoint cp with
        | some _ => acc
        | none => acc ++ [NormalizeCodePoint cp])
      init = init ++ (l.filter accepted).map NormalizeCodePoint := by
  induction l generalizing init with
  | nil => simp
  | cons a t ih =>
    rw [List.foldl_cons]
    cases hv : ValidateCodePoint a with
    | none => simp [ih, List.filter_cons, accepted, hv, List.append_assoc]
    | some e => simp [ih, List.filter_cons, accepted, hv]

/-- Rewrites `ProcessUCDForMongoDB` in normal form: the accepted, normalized
records in input order, the blocks, and no error. -/
theorem ProcessUCDForMongoDB_eq (ucd : UCD) :
    ProcessUCDForMongoDB ucd =
      (((ExtractAllCodePoints ucd).filter accepted).map NormalizeCodePoint,
        ExtractBlocks ucd, none) := by
  simp [ProcessUCDForMongoDB, processLoop_eq]

/-- If `dropWhile` fixes `l ++ [x]` and `p x` holds, `dropWhile` also
fixes `l`. -/
theorem dropWhile_eq_self_of_append_singleton {α : Type} {p : α → Bool} {l : List α} {x : α}
    (h : List.dropWhile p (l ++ [x]) = l ++ [x]) (hx : p x = true) :
    List.dropWhile p l = l := by
  cases l with
  | nil =>
    exfalso
    simp [List.dropWhile, hx] at h
  | cons a t =>
    have ha : p a = false := by
      by_contra hpa
      rw [Bool.not_eq_false] at hpa
      rw [List.cons_append, List.dropWhile_cons_of_pos hpa] at h
      have := congrArg List.length h
      have hle := (List.dropWhile_sublist (l := t ++ [x]) p).length_le
      simp at this hle
      omega
    rw [List.dropWhile_cons_of_neg (by simp [ha])]

/-- Double-reversal trimming step: if `dropWhile p` fixes `w.reverse`,
then it also fixes `(List.dropWhile p w).reverse`. -/
theorem dropWhile_reverse_dropWhile {α : Type} {p : α → Bool} :
    ∀ w : List α, List.dropWhile p w.reverse = w.reverse →
      List.dropWhile p (List.dropWhile p w).reverse = (List.dropWhile p w).reverse := by
  intro w
  induction w with
  | nil => simp
  | cons c w' ih =>
    intro h
    rw [List.reverse_cons] at h
    cases hc : p c with
    | false =>
      rw [List.dropWhile_cons_of_neg (by simp [hc]), List.reverse_cons]
      exact h
    | true =>
      rw [List.dropWhile_cons_of_pos hc]
      exact ih (dropWhile_eq_self_of_append_singleton h hc)

/-- Idempotence: `trimSpace` is idempotent. -/
theorem trimSpace_trimSpace (s : String) : trimSpace (trimSpace s) = trimSpace s := by
  unfold trimSpace
  apply congrArg String.mk
  set p := isGoSpace
  set l := s.data with hl
  -- the inner trimmed list and the facts `dropWhile p` fixes it on both ends
  have hu : List.dropWhile p (List.dropWhile p l) = List.dropWhile p l :=
    List.dropWhile_idempotent p l
  have hfix : List.dropWhile p ((List.dropWhile p l).reverse.dropWhile p).reverse =
      ((List.dropWhile p l).reverse.dropWhile p).reverse := by
    have := dropWhile_reverse_dropWhile (p := p) (List.dropWhile p l).reverse
    simp only [List.reverse_reverse] at this
    exact this hu
  rw [hfix, List.reverse_reverse, List.dropWhile_idempotent]

/-- The "#" sentinel normalization applied to one field. -/
def hashNorm (s : String) : String :=
  if s = "#" then "" else s

theorem hashNorm_hashNorm (s : String) : hashNorm (hashNorm s) = hashNorm s := by
  unfold hashNorm
  split <;> simp_all

set_option maxHeartbeats 3200000 in
/-- Normal form of `NormalizeCodePoint`: one record update, trimming the
four name-like fields and "#"-normalizing the ten mapping-type fields,
touching nothing else. -/
theorem NormalizeCodePoint_eq (cp : CodePoint) :
    NormalizeCodePoint cp =
      { cp with
        name := trimSpace cp.name
        name1 := trimSpace cp.name1
        block := trimSpace cp.block
        script := trimSpace cp.script
        bidiMirroringGlyph := hashNorm cp.bidiMirroringGlyph
        decompositionMapping := hashNorm cp.decompositionMapping
        simpleUppercase := hashNorm cp.simpleUppercase
        simpleLowercase := hashNorm cp.simpleLowercase
        simpleTitlecase := hashNorm cp.simpleTitlecase
        uppercaseMapping := hashNorm cp.uppercaseMapping
        lowercaseMapping := hashNorm cp.lowercaseMapping
        titlecaseMapping := hashNorm cp.titlecaseMapping
        simpleCaseFolding := hashNorm cp.simpleCaseFolding
        caseFolding := hashNorm cp.caseFolding } := by
  (ext <;>
    simp [NormalizeCodePoint, hashNorm,
      apply_ite CodePoint.id, apply_ite CodePoint.cp, apply_ite CodePoint.firstCP,
      apply_ite CodePoint.lastCP, apply_ite CodePoint.age, apply_ite CodePoint.name,
      apply_ite CodePoint.name1, apply_ite CodePoint.block,
      apply_ite CodePoint.generalCategory, apply_ite CodePoint.bidiMirroringGlyph,
      apply_ite CodePoint.decompositionMapping, apply_ite CodePoint.simpleUppercase,
      apply_ite CodePoint.simpleLowercase, apply_ite CodePoint.simpleTitlecase,
      apply_ite CodePoint.uppercaseMapping, apply_ite CodePoint.lowercaseMapping,
      apply_ite CodePoint.titlecaseMapping, apply_ite CodePoint.simpleCaseFolding,
      apply_ite CodePoint.caseFolding, apply_ite CodePoint.script,
      apply_ite CodePoint.deprecated, apply_ite CodePoint.noncharacter,
      apply_ite CodePoint.otherProps, apply_ite CodePoint.createdAt,
      apply_ite CodePoint.updatedAt])

/-! ## Concrete sample inputs for witnesses and counterexamples -/

/-- A record carrying a single code value AND a complete range. -/
def bothIdentitiesCP : CodePoint :=
  { cp := "0041", firstCP := "0378", lastCP := "0379" }

/-- A source whose repertoire holds just `bothIdentitiesCP` as a normal
(`char`) record. -/
def bothIdentitiesUCD : UCD :=
  { repertoire := some { codePoints := [bothIdentitiesCP] } }

/-- A source with one record per repertoire subsequence; the reserved
record starts with `deprecated = false` and the noncharacter record with
`noncharacter = false`, so the forced overwrite is observable. -/
def sampleRepertoire : Repertoire :=
  { reserved := [{ firstCP := "0378", lastCP := "0379", deprecated := false }]
    noncharacter := [{ cp := "FDD0", noncharacter := false }]
    surrogate := [{ cp := "D800", generalCategory := "Cs" }]
    codePoints := [{ cp := "0041", name := "LATIN CAPITAL LETTER A" }] }

/-- An accepted record exercising both the trimmed fields and the "#"
sentinel fields. -/
def sampleHashCP : CodePoint :=
  { cp := "0228", name := " LATIN CAPITAL LETTER E WITH CEDILLA ", script := "Latn ",
    bidiMirroringGlyph := "#", decompositionMapping := "0045 0327",
    simpleUppercase := "#", simpleLowercase := "0229", simpleTitlecase := "#",
    uppercaseMapping := "#", lowercaseMapping := "0229", titlecaseMapping := "#",
    simpleCaseFolding := "0229", caseFolding := "#" }

/-! ## Claims -/

/-- C1, counterexample: `ValidateCodePoint` never rejects a record with
BOTH a single code value and a complete range, and `ProcessUCDForMongoDB`
keeps such a record in its persisted output, so "exactly one ... never
both" fails. -/
theorem claim1_identity_counterexample :
    ValidateCodePoint bothIdentitiesCP = none ∧
    (ProcessUCDForMongoDB bothIdentitiesUCD).1 = [bothIdentitiesCP] ∧
    bothIdentitiesCP.cp ≠ "" ∧ bothIdentitiesCP.firstCP ≠ "" ∧
    bothIdentitiesCP.lastCP ≠ "" := by
  refine ⟨rfl, ?_, by decide, by decide, by decide⟩
  decide

/-- C1 (amended): every record that passes validation and is included in
the output of `ProcessUCDForMongoDB` has at least one of the single code
value or the range start populated, and whenever the range start is set
the range end is also set; both identities may be populated at once. -/
theorem claim1_identity_invariant (ucd : UCD) (r : CodePoint)
    (hr : r ∈ (ProcessUCDForMongoDB ucd).1) :
    (r.cp ≠ "" ∨ r.firstCP ≠ "") ∧ (r.firstCP ≠ "" → r.lastCP ≠ "") := by
  rw [ProcessUCDForMongoDB_eq] at hr
  simp only [List.mem_map, List.mem_filter] at hr
  obtain ⟨s, ⟨-, hacc⟩, rfl⟩ := hr
  have hs : ValidateCodePoint s = none := by
    simpa [accepted, Option.isNone_iff_eq_none] using hacc
  have hcp : (NormalizeCodePoint s).cp = s.cp := by simp [NormalizeCodePoint_eq]
  have hfirst : (NormalizeCodePoint s).firstCP = s.firstCP := by simp [NormalizeCodePoint_eq]
  have hlast : (NormalizeCodePoint s).lastCP = s.lastCP := by simp [NormalizeCodePoint_eq]
  rw [hcp, hfirst, hlast]
  unfold ValidateCodePoint at hs
  constructor
  · by_contra hboth
    push_neg at hboth
    simp [hboth.1, hboth.2] at hs
  · intro hf hl
    simp [hf, hl] at hs

/-- C1 witness: the amended invariant applied to the concrete source. -/
theorem claim1_identity_invariant_witness :
    (bothIdentitiesCP.cp ≠ "" ∨ bothIdentitiesCP.firstCP ≠ "") ∧
    (bothIdentitiesCP.firstCP ≠ "" → bothIdentitiesCP.lastCP ≠ "") :=
  claim1_identity_invariant bothIdentitiesUCD bothIdentitiesCP (by decide)

/-- C2: in the flattened output, every normal-origin record is passed
through unchanged, every reserved-origin record is its input with the
reserved marker (`Deprecated`) forcibly set regardless of its prior
value, every noncharacter-origin record is its input with the
`Noncharacter` marker forcibly set regardless of its prior value, and
every surrogate-origin record is passed through unchanged. -/
theorem claim2_category_marking (rep : Repertoire) :
    (∀ i, i < rep.codePoints.length →
      (getCodePointsFromRepertoire (some rep))[i]? = rep.codePoints[i]?) ∧
    (∀ i, i < rep.reserved.length →
      (getCodePointsFromRepertoire (some rep))[rep.codePoints.length + i]? =
        (rep.reserved[i]?).map (fun cp => { cp with deprecated := true })) ∧
    (∀ i, i < rep.noncharacter.length →
      (getCodePointsFromRepertoire (some rep))[rep.codePoints.length +
          rep.reserved.length + i]? =
        (rep.noncharacter[i]?).map (fun cp => { cp with noncharacter := true })) ∧
    (∀ i, i < rep.surrogate.length →
      (getCodePointsFromRepertoire (some rep))[rep.codePoints.length +
          rep.reserved.length + rep.noncharacter.length + i]? =
        rep.surrogate[i]?) := by
  have hEq := getCodePointsFromRepertoire_eq rep
  refine ⟨fun i hi => ?_, fun i hi => ?_, fun i hi => ?_, fun i hi => ?_⟩ <;> rw [hEq]
  · rw [List.getElem?_append_left
        (by simp only [List.length_append, List.length_map]; omega),
      List.getElem?_append_left
        (by simp only [List.length_append, List.length_map]; omega),
      List.getElem?_append_left hi]
  · rw [List.getElem?_append_left
        (by simp only [List.length_append, List.length_map]; omega),
      List.getElem?_append_left
        (by simp only [List.length_append, List.length_map]; omega),
      List.getElem?_append_right (by omega), Nat.add_sub_cancel_left,
      List.getElem?_map]
  · rw [List.getElem?_append_left
        (by simp only [List.length_append, List.length_map]; omega),
      List.getElem?_append_right
        (by simp only [List.length_append, List.length_map]; omega),
      List.getElem?_map]
    congr 2
    simp only [List.length_append, List.length_map]
    omega
  · rw [List.getElem?_append_right
        (by simp only [List.length_append, List.length_map]; omega)]
    congr 1
    simp only [List.length_append, List.length_map]
    omega

/-- C2 witness: the reserved record of the sample repertoire, which
starts with `deprecated = false`, comes out with the marker forced on. -/
theorem claim2_category_marking_witness :
    (getCodePointsFromRepertoire (some sampleRepertoire))[sampleRepertoire.codePoints.length +
        0]? =
      (sampleRepertoire.reserved[0]?).map (fun cp => { cp with deprecated := true }) :=
  (claim2_category_marking sampleRepertoire).2.1 0 (by decide)

/-- C3: `ValidateCodePoint` rejects exactly the records with no identity
at all or with an incomplete range; the missing-identity check runs
first, so the incomplete-range error is reported exactly when the first
check passed and the range is incomplete; and a record with no range
start is accepted iff its single code value is non-empty. -/
theorem claim3_validation_cases (cp : CodePoint) :
    (ValidateCodePoint cp = some .missingIdentity ↔
      (cp.cp = "" ∧ cp.firstCP = "")) ∧
    (ValidateCodePoint cp = some .incompleteRange ↔
      (¬(cp.cp = "" ∧ cp.firstCP = "") ∧ cp.firstCP ≠ "" ∧ cp.lastCP = "")) ∧
    (ValidateCodePoint cp = none ↔
      ((cp.cp ≠ "" ∨ cp.firstCP ≠ "") ∧ (cp.firstCP ≠ "" → cp.lastCP ≠ ""))) ∧
    (cp.firstCP = "" → (ValidateCodePoint cp = none ↔ cp.cp ≠ "")) := by
  unfold ValidateCodePoint
  by_cases h1 : cp.cp = "" <;> by_cases h2 : cp.firstCP = "" <;>
    by_cases h3 : cp.lastCP = "" <;> simp [h1, h2, h3]

/-- C3 witness: a record with a range start and no range end is rejected
as an incomplete range. -/
theorem claim3_validation_cases_witness :
    ValidateCodePoint { firstCP := "0378" } = some .incompleteRange :=
  (claim3_validation_cases { firstCP := "0378" }).2.1.mpr (by decide)

/-- C4: on an accepted record, normalization turns each of the ten
mapping-type fields into the empty string exactly when its value was the
literal "#", and leaves it untouched otherwise. -/
theorem claim4_hash_sentinel (cp : CodePoint) (hacc : ValidateCodePoint cp = none) :
    ((NormalizeCodePoint cp).bidiMirroringGlyph =
      if cp.bidiMirroringGlyph = "#" then "" else cp.bidiMirroringGlyph) ∧
    ((NormalizeCodePoint cp).decompositionMapping =
      if cp.decompositionMapping = "#" then "" else cp.decompositionMapping) ∧
    ((NormalizeCodePoint cp).simpleUppercase =
      if cp.simpleUppercase = "#" then "" else cp.simpleUppercase) ∧
    ((NormalizeCodePoint cp).simpleLowercase =
      if cp.simpleLowercase = "#" then "" else cp.simpleLowercase) ∧
    ((NormalizeCodePoint cp).simpleTitlecase =
      if cp.simpleTitlecase = "#" then "" else cp.simpleTitlecase) ∧
    ((NormalizeCodePoint cp).uppercaseMapping =
      if cp.uppercaseMapping = "#" then "" else cp.uppercaseMapping) ∧
    ((NormalizeCodePoint cp).lowercaseMapping =
      if cp.lowercaseMapping = "#" then "" else cp.lowercaseMapping) ∧
    ((NormalizeCodePoint cp).titlecaseMapping =
      if cp.titlecaseMapping = "#" then "" else cp.titlecaseMapping) ∧
    ((NormalizeCodePoint cp).simpleCaseFolding =
      if cp.simpleCaseFolding = "#" then "" else cp.simpleCaseFolding) ∧
    ((NormalizeCodePoint cp).caseFolding =
      if cp.caseFolding = "#" then "" else cp.caseFolding) := by
  simp [NormalizeCodePoint_eq, hashNorm]

/-- C4 witness: the sentinel normalization on the concrete record. -/
theorem claim4_hash_sentinel_witness :
    ((NormalizeCodePoint sampleHashCP).bidiMirroringGlyph =
      if sampleHashCP.bidiMirroringGlyph = "#" then "" else sampleHashCP.bidiMirroringGlyph) ∧
    ((NormalizeCodePoint sampleHashCP).decompositionMapping =
      if sampleHashCP.decompositionMapping = "#" then ""
      else sampleHashCP.decompositionMapping) ∧
    ((NormalizeCodePoint sampleHashCP).simpleUppercase =
      if sampleHashCP.simpleUppercase = "#" then "" else sampleHashCP.simpleUppercase) ∧
    ((NormalizeCodePoint sampleHashCP).simpleLowercase =
      if sampleHashCP.simpleLowercase = "#" then "" else sampleHashCP.simpleLowercase) ∧
    ((NormalizeCodePoint sampleHashCP).simpleTitlecase =
      if sampleHashCP.simpleTitlecase = "#" then "" else sampleHashCP.simpleTitlecase) ∧
    ((NormalizeCodePoint sampleHashCP).uppercaseMapping =
      if sampleHashCP.uppercaseMapping = "#" then "" else sampleHashCP.uppercaseMapping) ∧
    ((NormalizeCodePoint sampleHashCP).lowercaseMapping =
      if sampleHashCP.lowercaseMapping = "#" then "" else sampleHashCP.lowercaseMapping) ∧
    ((NormalizeCodePoint sampleHashCP).titlecaseMapping =
      if sampleHashCP.titlecaseMapping = "#" then "" else sampleHashCP.titlecaseMapping) ∧
    ((NormalizeCodePoint sampleHashCP).simpleCaseFolding =
      if sampleHashCP.simpleCaseFolding = "#" then "" else sampleHashCP.simpleCaseFolding) ∧
    ((NormalizeCodePoint sampleHashCP).caseFolding =
      if sampleHashCP.caseFolding = "#" then "" else sampleHashCP.caseFolding) :=
  claim4_hash_sentinel sampleHashCP (by decide)

/-- C5: `NormalizeCodePoint` is idempotent on accepted records. -/
theorem claim5_normalize_idempotent (cp : CodePoint)
    (hacc : ValidateCodePoint cp = none) :
    NormalizeCodePoint (NormalizeCodePoint cp) = NormalizeCodePoint cp := by
  simp [NormalizeCodePoint_eq, trimSpace_trimSpace, hashNorm_hashNorm]

/-- C5 witness: idempotence on the concrete accepted record. -/
theorem claim5_normalize_idempotent_witness :
    NormalizeCodePoint (NormalizeCodePoint sampleHashCP) = NormalizeCodePoint sampleHashCP :=
  claim5_normalize_idempotent sampleHashCP (by decide)

/-- C6: the flattened output is the concatenation of the four
subsequences in the fixed order normal, reserved, noncharacter,
surrogate (the marked reserved/noncharacter records keeping their
internal order under `map`), and its length is the sum of the four
subsequence lengths. -/
theorem claim6_flatten_order (rep : Repertoire) :
    getCodePointsFromRepertoire (some rep) =
      rep.codePoints ++
      rep.reserved.map (fun cp => { cp with deprecated := true }) ++
      rep.noncharacter.map (fun cp => { cp with noncharacter := true }) ++
      rep.surrogate ∧
    (getCodePointsFromRepertoire (some rep)).length =
      rep.codePoints.length + rep.reserved.length + rep.noncharacter.length +
        rep.surrogate.length := by
  refine ⟨getCodePointsFromRepertoire_eq rep, ?_⟩
  simp [getCodePointsFromRepertoire_eq]
  omega

/-- C9: `ProcessUCDForMongoDB` never fails — the error component is
always `none` — and its code-point output is exactly the accepted
records of the flattened input, in input order, each normalized; a
rejected record is merely skipped. -/
theorem claim9_process_never_fails (ucd : UCD) :
    (ProcessUCDForMongoDB ucd).2.2 = none ∧
    (ProcessUCDForMongoDB ucd).1 =
      ((ExtractAllCodePoints ucd).filter accepted).map NormalizeCodePoint ∧
    (ProcessUCDForMongoDB ucd).2.1 = ExtractBlocks ucd := by
  simp [ProcessUCDForMongoDB_eq]

/-! ## Lemmas about the batched insert loop -/

/-- When every batch insert succeeds, the loop appends all documents and
reports no error. -/
theorem insertLoop_all_ok (insertOk : Nat → Bool) (h : ∀ j, insertOk j = true) :
    ∀ (n : Nat) (docs acc : List CodePoint) (i : Nat), docs.length ≤ n →
      insertLoop insertOk acc docs i = (acc ++ docs, none) := by
  intro n
  induction n with
  | zero =>
    intro docs acc i hlen
    have hnil : docs = [] := List.length_eq_zero.mp (Nat.le_zero.mp hlen)
    subst hnil
    simp [insertLoop]
  | succ n ih =>
    intro docs acc i hlen
    cases docs with
    | nil => simp [insertLoop]
    | cons d rest =>
      rw [insertLoop]
      simp only [h i, if_true]
      rw [ih (rest.drop 999) (acc ++ (d :: rest).take 1000) (i + 1000)
        (by simp only [List.length_drop]; simp only [List.length_cons] at hlen; omega)]
      rw [List.append_assoc]
      congr 1
      simpa using List.take_append_drop 1000 (d :: rest)

/-- When the first failing batch starts at offset `k` (a multiple of
1000 within the documents), the loop stops there: the batches before `k`
are appended, and the failing positional range `[i+k, i+k+len(batch))`
is reported. -/
theorem insertLoop_first_fail (insertOk : Nat → Bool) :
    ∀ (n : Nat) (docs acc : List CodePoint) (i k : Nat), docs.length ≤ n →
      k % 1000 = 0 → k < docs.length →
      insertOk (i + k) = false →
      (∀ j, j % 1000 = 0 → j < k → insertOk (i + j) = true) →
      insertLoop insertOk acc docs i =
        (acc ++ docs.take k,
          some (.insertFailed (i + k) (i + k + min 1000 (docs.length - k)))) := by
  intro n
  induction n with
  | zero =>
    intro docs acc i k hlen _ hk _ _
    omega
  | succ n ih =>
    intro docs acc i k hlen hkmod hk hfail hprev
    cases docs with
    | nil => simp at hk
    | cons d rest =>
      rcases Nat.eq_zero_or_pos k with hk0 | hkpos
      · subst hk0
        rw [insertLoop]
        simp only [Nat.add_zero] at hfail
        simp [hfail]
      · have hk1000 : 1000 ≤ k := by omega
        have hok0 : insertOk i = true := by
          have := hprev 0 (by omega) (by omega)
          simpa using this
        rw [insertLoop]
        simp only [hok0, if_true]
        have hrec := ih (rest.drop 999) (acc ++ (d :: rest).take 1000) (i + 1000) (k - 1000)
          (by simp only [List.length_drop]; simp only [List.length_cons] at hlen ⊢; omega)
          (by omega)
          (by simp only [List.length_drop, List.length_cons] at hk ⊢; omega)
          (by have : i + 1000 + (k - 1000) = i + k := by omega
              rw [this]; exact hfail)
          (by intro j hjmod hjlt
              have : i + 1000 + j = i + (1000 + j) := by omega
              rw [this]
              exact hprev (1000 + j) (by omega) (by omega))
        rw [hrec]
        have hdrop : rest.drop 999 = (d :: rest).drop 1000 := by simp
        simp only [Prod.mk.injEq, Option.some.injEq, SaveErr.insertFailed.injEq]
        refine ⟨?_, by omega, ?_⟩
        · have hk' : 1000 + (k - 1000) = k := by omega
          have htake : (d :: rest).take 1000 ++ (rest.drop 999).take (k - 1000) =
              (d :: rest).take k := by
            rw [hdrop, ← List.take_add, hk']
          rw [List.append_assoc, htake]
        · simp only [hdrop, List.length_drop, List.length_cons]
          simp only [List.length_cons] at hk
          omega

/-- C7: `SaveCodePoints` is a no-op on empty input; on non-empty input
with a successful `DeleteMany`, the prior documents are all gone and (a)
if every batch insert succeeds the collection holds exactly the input
records stamped with fresh identities and timestamps, with no error,
while (b) if the batch at offset `k` is the first to fail, the loop
stops there, reports the failing positional range
`[k, min (k+1000) n)`, and exactly the batches before `k` remain
persisted — no rollback. -/
theorem claim7_save_code_points (deleteOk : Bool) (insertOk : Nat → Bool)
    (ids : Nat → Nat) (now : Nat) (db codePoints : List CodePoint) :
    (codePoints = [] →
      SaveCodePoints deleteOk insertOk ids now db codePoints = (db, none)) ∧
    (codePoints ≠ [] → deleteOk = true → (∀ j, insertOk j = true) →
      SaveCodePoints deleteOk insertOk ids now db codePoints =
        (stampDocs ids now 0 codePoints, none)) ∧
    (∀ k, codePoints ≠ [] → deleteOk = true →
      k % 1000 = 0 → k < codePoints.length → insertOk k = false →
      (∀ j, j % 1000 = 0 → j < k → insertOk j = true) →
      SaveCodePoints deleteOk insertOk ids now db codePoints =
        ((stampDocs ids now 0 codePoints).take k,
          some (.insertFailed k (min (k + 1000) codePoints.length)))) := by
  refine ⟨fun hnil => ?_, fun hne hdel hok => ?_, fun k hne hdel hkmod hk hfail hprev => ?_⟩
  · subst hnil
    simp [SaveCodePoints]
  · have h1 : ¬ codePoints.length = 0 := fun h => hne (List.length_eq_zero.mp h)
    simp only [SaveCodePoints, if_neg h1, hdel, Bool.not_true, Bool.false_eq_true, if_false]
    rw [insertLoop_all_ok insertOk hok (stampDocs ids now 0 codePoints).length _ _ 0
      (Nat.le_refl _)]
    simp
  · have h1 : ¬ codePoints.length = 0 := fun h => hne (List.length_eq_zero.mp h)
    simp only [SaveCodePoints, if_neg h1, hdel, Bool.not_true, Bool.false_eq_true, if_false]
    have hstamplen : ∀ (l : List CodePoint) (i : Nat),
        (stampDocs ids now i l).length = l.length := by
      intro l
      induction l with
      | nil => intro i; rfl
      | cons a t iht => intro i; simp [stampDocs, iht]
    have hrec := insertLoop_first_fail insertOk (stampDocs ids now 0 codePoints).length
      (stampDocs ids now 0 codePoints) [] 0 k (Nat.le_refl _) hkmod
      (by rw [hstamplen]; exact hk)
      (by simpa using hfail)
      (by intro j hjmod hjlt; simpa using hprev j hjmod hjlt)
    rw [hrec, hstamplen]
    simp only [List.nil_append, Nat.zero_add, Prod.mk.injEq, Option.some.injEq,
      SaveErr.insertFailed.injEq]
    exact ⟨trivial, trivial, by omega⟩

/-- C7 witness: saving one record over a non-empty collection replaces
it with the freshly stamped input and reports no error. -/
theorem claim7_save_code_points_witness :
    SaveCodePoints true (fun _ => true) (fun i => i + 1) 5 [sampleHashCP] [bothIdentitiesCP] =
      (stampDocs (fun i => i + 1) 5 0 [bothIdentitiesCP], none) :=
  (claim7_save_code_points true (fun _ => true) (fun i => i + 1) 5 [sampleHashCP]
    [bothIdentitiesCP]).2.1 (by simp) rfl (fun _ => rfl)

/-! ## Lemmas for the run-level idempotence claim -/

/-- Behaviour of `SaveCodePoints` on the success path: empty input is a no-op,
non-empty input replaces the collection with the stamped records. -/
theorem SaveCodePoints_ok_run (ids : Nat → Nat) (now : Nat) (db cps : List CodePoint) :
    SaveCodePoints true (fun _ => true) ids now db cps =
      (if cps.length = 0 then db else stampDocs ids now 0 cps, none) := by
  by_cases h : cps.length = 0
  · simp [SaveCodePoints, h]
  · simp only [SaveCodePoints, if_neg h, Bool.not_true, Bool.false_eq_true, if_false]
    rw [insertLoop_all_ok _ (fun _ => rfl) (stampDocs ids now 0 cps).length _ _ 0
      (Nat.le_refl _)]
    simp

/-- Behaviour of `SaveBlocks` on the success path. -/
theorem SaveBlocks_ok_run (ids : Nat → Nat) (now : Nat) (db blocks : List Block) :
    SaveBlocks true true ids now db blocks =
      (if blocks.length = 0 then db else stampBlocks ids now 0 blocks, none) := by
  by_cases h : blocks.length = 0 <;> simp [SaveBlocks, h]

/-- Stamping only touches the identity and timestamps, so it is
invisible after erasure. -/
theorem map_eraseCP_stampDocs (ids : Nat → Nat) (now : Nat) :
    ∀ (i : Nat) (l : List CodePoint),
      (stampDocs ids now i l).map eraseCP = l.map eraseCP := by
  intro i l
  induction l generalizing i with
  | nil => rfl
  | cons a t ih => simp [stampDocs, eraseCP, ih]

/-- Stamping blocks is likewise invisible after erasure. -/
theorem map_eraseBlock_stampBlocks (ids : Nat → Nat) (now : Nat) :
    ∀ (i : Nat) (l : List Block),
      (stampBlocks ids now i l).map eraseBlock = l.map eraseBlock := by
  intro i l
  induction l generalizing i with
  | nil => rfl
  | cons a t ih => simp [stampBlocks, eraseBlock, ih]

/-- C8: running the pipeline twice against the same decoded source
yields the same destination state after both runs, compared up to the
freshly assigned identities and timestamps, whatever the initial
destination state and whatever ObjectIDs and clock values each run
draws: every save is a destructive replace. -/
theorem claim8_run_twice_idempotent (src : UCD) (s0 : DBState)
    (ids1 idsB1 ids2 idsB2 : Nat → Nat) (now1 now2 : Nat) :
    eraseState (runPipeline src ids2 idsB2 now2 (runPipeline src ids1 idsB1 now1 s0)) =
      eraseState (runPipeline src ids1 idsB1 now1 s0) := by
  simp only [runPipeline, SaveCodePoints_ok_run, SaveBlocks_ok_run, eraseState]
  by_cases hc : (ProcessUCDForMongoDB src).1.length = 0 <;>
    by_cases hb : (ProcessUCDForMongoDB src).2.1.length = 0 <;>
      simp [hc, hb, map_eraseCP_stampDocs, map_eraseBlock_stampBlocks, SaveUCD,
        mkUCDMetadata, eraseMeta]

/-- C10: a missing document is not an error — with no store failure and
no matching document, `GetCodePointByCP` returns `ok none`; and the only
way it returns an error at all is a store failure other than
no-document-found. -/
theorem claim10_get_code_point_absent (storeFail : Option String)
    (db : List CodePoint) (cp : String) :
    (storeFail = none → (∀ d ∈ db, d.cp ≠ cp) →
      GetCodePointByCP storeFail db cp = .ok none) ∧
    (∀ e, GetCodePointByCP storeFail db cp = .error e → storeFail ≠ none) := by
  cases storeFail with
  | some msg =>
    exact ⟨fun h => by simp at h, fun e _ => by simp⟩
  | none =>
    constructor
    · intro _ hnone
      have hfind : db.find? (fun d => d.cp = cp) = none :=
        List.find?_eq_none.mpr (fun x hx => by simpa using hnone x hx)
      simp [GetCodePointByCP, findOneByCP, hfind]
    · intro e he
      exfalso
      unfold GetCodePointByCP findOneByCP at he
      cases hf : db.find? (fun d => d.cp = cp) with
      | none => rw [hf] at he; simp at he
      | some d => rw [hf] at he; simp at he

/-- C10 witness: looking up an absent code value over a non-empty
collection yields `ok none`, not an error. -/
theorem claim10_get_code_point_absent_witness :
    GetCodePointByCP none [sampleHashCP] "0041" = .ok none :=
  (claim10_get_code_point_absent none [sampleHashCP] "0041").1 rfl (by decide)

end Udc2Mongo
